import Mathlib

/-!
Verification of the limb-darkening correction program (darklimb.py).

The program is shallowly embedded: header values and raw pixel data are
rationals (FITS headers and pixel grids hold finite decimals), while the
correction arithmetic (sqrt / arcsin / cos) is carried out over the reals,
the idealisation of the program's floating-point arithmetic.  Fallible
steps (header key lookup) are embedded with `Except`.
-/

namespace Darklimb

/-- Errors surfaced by the embedded pipeline.  A missing header key aborts
the run carrying the offending key (the program's dictionary lookup
`head['KEY']` raises a keyed lookup error). -/
inductive DLError where
  | missingField (key : String) : DLError
  deriving DecidableEq, Repr

/-- A FITS header: a partial map from key names to numeric values. -/
def Header : Type := String → Option ℚ

/-- The nine header keys read by `darklimb`, in the order the program
reads them. -/
def requiredKeys : List String :=
  ["WAVELNTH", "CRPIX1", "CRPIX2", "RSUN_OBS", "CDELT1",
   "NAXIS1", "BZERO", "BLANK", "BSCALE"]

/-- The scalar parameters the program extracts from the header.
`radius` is already the derived quantity RSUN_OBS / CDELT1 and `size`
the frame dimension NAXIS1. -/
structure Params where
  wavelength : ℚ
  xcen : ℚ
  ycen : ℚ
  radius : ℚ
  size : ℕ
  bzero : ℚ
  blank : ℚ
  bscale : ℚ
  deriving DecidableEq, Repr

/-- Sequential header extraction, mirroring lines 99-106 of darklimb.py:
each lookup fails with `missingField` if the key is absent, and
`radius = RSUN_OBS / CDELT1` is derived at read time. -/
def extractParams (head : Header) : Except DLError Params :=
  match head "WAVELNTH" with
  | none => .error (.missingField "WAVELNTH")
  | some w =>
  match head "CRPIX1" with
  | none => .error (.missingField "CRPIX1")
  | some xc =>
  match head "CRPIX2" with
  | none => .error (.missingField "CRPIX2")
  | some yc =>
  match head "RSUN_OBS" with
  | none => .error (.missingField "RSUN_OBS")
  | some rs =>
  match head "CDELT1" with
  | none => .error (.missingField "CDELT1")
  | some cd =>
  match head "NAXIS1" with
  | none => .error (.missingField "NAXIS1")
  | some n =>
  match head "BZERO" with
  | none => .error (.missingField "BZERO")
  | some bz =>
  match head "BLANK" with
  | none => .error (.missingField "BLANK")
  | some bl =>
  match head "BSCALE" with
  | none => .error (.missingField "BSCALE")
  | some bs =>
  .ok ⟨w, xc, yc, rs / cd, (⌊n⌋).toNat, bz, bl, bs⟩

/-- The u-coefficient polynomial (darklimb.py lines 67-77): the sum
`sum(a * pll)` of the hard-coded coefficient array against
`[1, ll, ll^2, ll^3, ll^4, ll^5]`. -/
noncomputable def darklimb_u (ll : ℝ) : ℝ :=
  (-8.9829751) * 1.0 + 0.0069093916 * ll + (-1.8144591e-6) * ll ^ 2 +
    2.2540875e-10 * ll ^ 3 + (-1.3389747e-14) * ll ^ 4 + 3.0453572e-19 * ll ^ 5

/-- The v-coefficient polynomial (darklimb.py lines 79-89). -/
noncomputable def darklimb_v (ll : ℝ) : ℝ :=
  9.2891180 * 1.0 + (-0.0062212632) * ll + 1.5788029e-6 * ll ^ 2 +
    (-1.9359644e-10) * ll ^ 3 + 1.1444469e-14 * ll ^ 4 + (-2.599494e-19) * ll ^ 5

/-- The tabulated empirical u coefficients of the specification, indexed
by the power of λ they multiply. -/
noncomputable def uCoeff : ℕ → ℝ
  | 0 => -8.9829751
  | 1 => 6.9093916e-3
  | 2 => -1.8144591e-6
  | 3 => 2.2540875e-10
  | 4 => -1.3389747e-14
  | 5 => 3.0453572e-19
  | _ => 0

/-- The tabulated empirical v coefficients of the specification. -/
noncomputable def vCoeff : ℕ → ℝ
  | 0 => 9.2891180
  | 1 => -6.2212632e-3
  | 2 => 1.5788029e-6
  | 3 => -1.9359644e-10
  | 4 => 1.1444469e-14
  | 5 => -2.599494e-19
  | _ => 0

/-- Maximum of a list of rationals, matching `np.max` on a nonempty
axis (the empty case never arises for an image and is given a junk
value). -/
def maxList : List ℚ → ℚ
  | [] => 0
  | [x] => x
  | x :: y :: t => max x (maxList (y :: t))

/-- Maximum over a whole 2D grid, as `np.max(data)` computes it. -/
def dataMax (data : List (List ℚ)) : ℚ := maxList (data.map maxList)

/-- Element access into a 2D grid (row i, column j), with a junk default
outside the grid (the program only ever indexes in range). -/
def at2 (data : List (List ℚ)) (i j : ℕ) : ℚ := (data.getD i []).getD j 0

/-- Rescaled pixel (darklimb.py lines 110-112): `1e4 * data / max(data)`,
with pixels whose raw value is below -10 zero-filled. -/
def rescale (maxv x : ℚ) : ℚ := if x < -10 then 0 else 10000 * x / maxv

/-- Radial pixel distance from the reference center (line 124); the
meshgrid makes the column index j the x coordinate and the row index i
the y coordinate. -/
noncomputable def zDist (xcen ycen : ℝ) (i j : ℕ) : ℝ :=
  Real.sqrt (((j : ℝ) - xcen) ^ 2 + ((i : ℝ) - ycen) ^ 2)

/-- Normalized radial distance `grid = z / radius` (line 126). -/
noncomputable def normGrid (xcen ycen radius : ℝ) (i j : ℕ) : ℝ :=
  zDist xcen ycen i j / radius

/-- The clamp of lines 127-128: normalized radii above 1 are zeroed to
stay inside the arcsin domain. -/
noncomputable def clampGrid (g : ℝ) : ℝ := if g > 1 then 0 else g

/-- The limb correction factor of lines 130-131, as a function of the
coefficients and an (already clamped) normalized radius. -/
noncomputable def limbFactor (u v g : ℝ) : ℝ :=
  1.0 - u - v + u * Real.cos (Real.arcsin g) + v * Real.cos (Real.arcsin g) ^ 2

/-- The correction factor viewed as a function of the raw normalized
radius, at wavelength lam: the composition of the clamp and the
correction formula that the pipeline applies pointwise. -/
noncomputable def corrFactor (lam r : ℝ) : ℝ :=
  limbFactor (darklimb_u lam) (darklimb_v lam) (clampGrid r)

/-- The per-pixel value of the `limbfilt` field computed by `darklimb`
for parameters p. -/
noncomputable def limbfiltAt (p : Params) (i j : ℕ) : ℝ :=
  corrFactor (p.wavelength : ℝ)
    (normGrid (p.xcen : ℝ) (p.ycen : ℝ) (p.radius : ℝ) i j)

/-- Truncation towards zero of a rational (the semantics of Python's
`int(...)` on a float). -/
def qtrunc (x : ℚ) : ℤ := if 0 ≤ x then ⌊x⌋ else -⌊-x⌋

/-- Truncation towards zero of a real (the semantics of a C float-to-int
cast, which numpy uses for `dtype='uint32'`). -/
noncomputable def rtrunc (x : ℝ) : ℤ := if 0 ≤ x then ⌊x⌋ else -⌊-x⌋

/-- Reduction of a truncated integer to an unsigned 32-bit value
(two's-complement wraparound of the cast). -/
def u32cast (n : ℤ) : ℕ := (n % 2 ^ 32).toNat

/-- The final magnitude multiplier `int(1e-4 * np.nanmax(data))` of
line 138, as the uint32 value it is combined with. -/
def rescaleMult (data : List (List ℚ)) : ℕ :=
  u32cast (qtrunc (1 / 10000 * dataMax data))

/-- The corrected output grid (lines 134 and 138): each pixel is the
rescaled intensity divided by the correction factor, cast to uint32,
then multiplied (in uint32 arithmetic) by the magnitude multiplier. -/
noncomputable def imgOut (p : Params) (data : List (List ℚ)) : List (List ℕ) :=
  (List.range p.size).map fun i =>
    (List.range p.size).map fun j =>
      u32cast (rtrunc ((rescale (dataMax data) (at2 data i j) : ℝ) /
        limbfiltAt p i j)) * rescaleMult data % 2 ^ 32

/-- Element access into the output grid. -/
def atN (g : List (List ℕ)) (i j : ℕ) : ℕ := (g.getD i []).getD j 0

/-- Setting one key of a header map (a dictionary store). -/
def setField (head : Header) (k : String) (v : ℚ) : Header :=
  fun k2 => if k2 = k then some v else head k2

/-- The metadata record of the output (lines 135-137): the three scaling
keys are re-asserted to the values read at extraction time. -/
def outHead (head : Header) (p : Params) : Header :=
  setField (setField (setField head "BZERO" p.bzero) "BLANK" p.blank)
    "BSCALE" p.bscale

/-- Whether a character list begins with the pattern pat. -/
def beginsW (pat s : List Char) : Bool := s.take pat.length = pat

/-- Whether the pattern occurs anywhere in the character list. -/
def hasOcc (pat : List Char) : List Char → Bool
  | [] => pat.isEmpty
  | c :: t => beginsW pat (c :: t) || hasOcc pat t

/-- Fuel-indexed left-to-right replacement of every non-overlapping
occurrence of pat by rep, the semantics of Python's str.replace; each
step consumes at least one character, so fuel equal to the length of the
subject suffices. -/
def replFuel (pat rep : List Char) : ℕ → List Char → List Char
  | 0, s => s
  | _ + 1, [] => []
  | f + 1, c :: t =>
    if beginsW pat (c :: t) then rep ++ replFuel pat rep f ((c :: t).drop pat.length)
    else c :: replFuel pat rep f t

/-- Python's `s.replace(pat, rep)` on character lists. -/
def pyReplace (pat rep s : List Char) : List Char := replFuel pat rep s.length s

/-- The pattern replaced by `writefits` (the module constant
`replace = '.fits'`). -/
def fitsPat : List Char := ['.', 'f', 'i', 't', 's']

/-- The replacement text `_noLimbDark.fits` of writefits. -/
def markPat : List Char :=
  ['_', 'n', 'o', 'L', 'i', 'm', 'b', 'D', 'a', 'r', 'k', '.', 'f', 'i', 't', 's']

/-- The output name computed by `writefits` (darklimb.py line 36):
`name.replace('.fits', '_noLimbDark.fits')`. -/
def writefits (name : List Char) : List Char := pyReplace fitsPat markPat name

/-- Modelled from the spec's words for comparison: replacement of the
known suffix only, leaving text elsewhere in the name untouched. -/
def suffixReplaceSpec (name : List Char) : List Char :=
  if fitsPat.length ≤ name.length ∧ name.drop (name.length - fitsPat.length) = fitsPat
  then name.take (name.length - fitsPat.length) ++ markPat
  else name

/-- The whole `darklimb` pipeline: extract parameters, build the
corrected grid, and return the corrected image (grid and metadata)
alongside the original (grid and the same metadata record). -/
noncomputable def darklimb (head : Header) (data : List (List ℚ)) :
    Except DLError ((List (List ℕ) × Header) × (List (List ℚ) × Header)) :=
  match extractParams head with
  | .error e => .error e
  | .ok p => .ok ((imgOut p data, outHead head p), (data, outHead head p))

/-! Helper lemmas shared by the claim theorems. -/

/-- At clamped radius 0 the correction formula collapses to 1: the u and
v contributions cancel against the constant part. -/
lemma limbFactor_zero (u v : ℝ) : limbFactor u v 0 = 1 := by
  unfold limbFactor
  rw [Real.arcsin_zero, Real.cos_zero]
  norm_num
  ring

/-- At clamped radius 1 the trigonometric terms vanish and the correction
formula equals 1 - u - v. -/
lemma limbFactor_one (u v : ℝ) : limbFactor u v 1 = 1 - u - v := by
  unfold limbFactor
  rw [Real.arcsin_one, Real.cos_pi_div_two]
  norm_num

/-- C3. For every wavelength λ, the program's coefficient functions u(λ)
and v(λ) equal the 5th-degree polynomials with exactly the tabulated
empirical coefficients, summed as Σ coeff_i * λ^i for i = 0..5; both are
plain functions of the wavelength alone. -/
theorem coefficient_polynomials (lam : ℝ) :
    darklimb_u lam = ∑ i in Finset.range 6, uCoeff i * lam ^ i ∧
    darklimb_v lam = ∑ i in Finset.range 6, vCoeff i * lam ^ i := by
  constructor <;>
  · simp [darklimb_u, darklimb_v, uCoeff, vCoeff, Finset.sum_range_succ]
    norm_num

/-- C1. Every pixel whose normalized radial distance from the center is
strictly greater than 1 gets correction factor exactly 1, for every
parameter record (and so independently of the wavelength). -/
theorem offdisk_correction_factor_eq_one (p : Params) (i j : ℕ)
    (h : 1 < normGrid (p.xcen : ℝ) (p.ycen : ℝ) (p.radius : ℝ) i j) :
    limbfiltAt p i j = 1 := by
  unfold limbfiltAt corrFactor clampGrid
  rw [if_pos h]
  exact limbFactor_zero _ _

/-- The C1 theorem instantiated at a concrete off-disk pixel: center
(0, 0), radius 1 pixel, pixel (0, 2) at normalized radius 2. -/
theorem offdisk_correction_factor_eq_one_witness :
    1 < normGrid ((0 : ℚ) : ℝ) ((0 : ℚ) : ℝ) ((1 : ℚ) : ℝ) 0 2 ∧
    limbfiltAt ⟨6173, 0, 0, 1, 4, 0, 0, 1⟩ 0 2 = 1 := by
  have h : 1 < normGrid ((0 : ℚ) : ℝ) ((0 : ℚ) : ℝ) ((1 : ℚ) : ℝ) 0 2 := by
    unfold normGrid zDist
    have h4 : (((2 : ℕ) : ℝ) - ((0 : ℚ) : ℝ)) ^ 2 +
        (((0 : ℕ) : ℝ) - ((0 : ℚ) : ℝ)) ^ 2 = 2 ^ 2 := by
      push_cast
      ring
    rw [h4, Real.sqrt_sq (by norm_num : (0 : ℝ) ≤ 2)]
    norm_num
  exact ⟨h, offdisk_correction_factor_eq_one ⟨6173, 0, 0, 1, 4, 0, 0, 1⟩ 0 2 h⟩

/-- A concrete header carrying all nine required keys (values in the
style of an HMI continuum observation). -/
def fullHead : Header := fun k =>
  if k = "WAVELNTH" then some 6173
  else if k = "CRPIX1" then some 2048
  else if k = "CRPIX2" then some 2048
  else if k = "RSUN_OBS" then some 976
  else if k = "CDELT1" then some 2
  else if k = "NAXIS1" then some 4
  else if k = "BZERO" then some 0
  else if k = "BLANK" then some (-2147483648)
  else if k = "BSCALE" then some 1
  else none

/-- The parameters extracted from `fullHead`. -/
def pFull : Params := ⟨6173, 2048, 2048, 488, 4, 0, -2147483648, 1⟩

/-- A successful extraction reads the three scaling keys verbatim from
the header. -/
lemma extractParams_ok_reads (head : Header) (p : Params)
    (h : extractParams head = .ok p) :
    head "BZERO" = some p.bzero ∧ head "BLANK" = some p.blank ∧
      head "BSCALE" = some p.bscale := by
  unfold extractParams at h
  repeat' split at h
  all_goals cases h
  simp_all

/-- When all nine keys are present, extraction succeeds with the values
read, the derived radius RSUN_OBS / CDELT1 and the frame size NAXIS1. -/
lemma extractParams_reads_ok (head : Header) (w xc yc rs cd n bz bl bs : ℚ)
    (hw : head "WAVELNTH" = some w) (hxc : head "CRPIX1" = some xc)
    (hyc : head "CRPIX2" = some yc) (hrs : head "RSUN_OBS" = some rs)
    (hcd : head "CDELT1" = some cd) (hn : head "NAXIS1" = some n)
    (hbz : head "BZERO" = some bz) (hbl : head "BLANK" = some bl)
    (hbs : head "BSCALE" = some bs) :
    extractParams head = .ok ⟨w, xc, yc, rs / cd, (⌊n⌋).toNat, bz, bl, bs⟩ := by
  unfold extractParams
  rw [hw, hxc, hyc, hrs, hcd, hn, hbz, hbl, hbs]

/-- The parameter record extracted from `fullHead`, via the helper. -/
lemma extractParams_fullHead : extractParams fullHead = .ok pFull := by
  have h := extractParams_reads_ok fullHead 6173 2048 2048 976 2 4 0
    (-2147483648) 1 (by decide) (by decide) (by decide) (by decide) (by decide)
    (by decide) (by decide) (by decide) (by decide)
  rw [h]
  norm_num [pFull, Params.mk.injEq]
  decide

/-- C5. Extraction reads the nine numeric header fields: when all are
present it succeeds and derives radius_pixels = RSUN_OBS / CDELT1, and
when one of the required keys is absent it fails with a missing-field
error naming an absent required key. -/
theorem extraction_reads_and_missing (head : Header) :
    (∀ w xc yc rs cd n bz bl bs : ℚ,
      head "WAVELNTH" = some w → head "CRPIX1" = some xc →
      head "CRPIX2" = some yc → head "RSUN_OBS" = some rs →
      head "CDELT1" = some cd → head "NAXIS1" = some n →
      head "BZERO" = some bz → head "BLANK" = some bl →
      head "BSCALE" = some bs →
      extractParams head = .ok ⟨w, xc, yc, rs / cd, (⌊n⌋).toNat, bz, bl, bs⟩) ∧
    ((∃ k ∈ requiredKeys, head k = none) →
      ∃ k2 ∈ requiredKeys, head k2 = none ∧
        extractParams head = .error (.missingField k2)) := by
  constructor
  · intro w xc yc rs cd n bz bl bs hw hxc hyc hrs hcd hn hbz hbl hbs
    unfold extractParams
    rw [hw, hxc, hyc, hrs, hcd, hn, hbz, hbl, hbs]
  · rintro ⟨k, hk, hnone⟩
    cases h1 : head "WAVELNTH" with
    | none => exact ⟨"WAVELNTH", by simp [requiredKeys], h1, by simp [extractParams, h1]⟩
    | some w =>
    cases h2 : head "CRPIX1" with
    | none => exact ⟨"CRPIX1", by simp [requiredKeys], h2, by simp [extractParams, h1, h2]⟩
    | some xc =>
    cases h3 : head "CRPIX2" with
    | none => exact ⟨"CRPIX2", by simp [requiredKeys], h3, by simp [extractParams, h1, h2, h3]⟩
    | some yc =>
    cases h4 : head "RSUN_OBS" with
    | none => exact ⟨"RSUN_OBS", by simp [requiredKeys], h4,
        by simp [extractParams, h1, h2, h3, h4]⟩
    | some rs =>
    cases h5 : head "CDELT1" with
    | none => exact ⟨"CDELT1", by simp [requiredKeys], h5,
        by simp [extractParams, h1, h2, h3, h4, h5]⟩
    | some cd =>
    cases h6 : head "NAXIS1" with
    | none => exact ⟨"NAXIS1", by simp [requiredKeys], h6,
        by simp [extractParams, h1, h2, h3, h4, h5, h6]⟩
    | some n =>
    cases h7 : head "BZERO" with
    | none => exact ⟨"BZERO", by simp [requiredKeys], h7,
        by simp [extractParams, h1, h2, h3, h4, h5, h6, h7]⟩
    | some bz =>
    cases h8 : head "BLANK" with
    | none => exact ⟨"BLANK", by simp [requiredKeys], h8,
        by simp [extractParams, h1, h2, h3, h4, h5, h6, h7, h8]⟩
    | some bl =>
    cases h9 : head "BSCALE" with
    | none => exact ⟨"BSCALE", by simp [requiredKeys], h9,
        by simp [extractParams, h1, h2, h3, h4, h5, h6, h7, h8, h9]⟩
    | some bs =>
      simp [requiredKeys] at hk
      rcases hk with rfl | rfl | rfl | rfl | rfl | rfl | rfl | rfl | rfl <;>
        simp_all

/-- The C5 theorem instantiated at the concrete full header (success
branch, including the derived radius 976 / 2 = 488) and at the empty
header (failure branch). -/
theorem extraction_reads_and_missing_witness :
    extractParams fullHead =
      .ok ⟨6173, 2048, 2048, 976 / 2, (⌊(4 : ℚ)⌋).toNat, 0, -2147483648, 1⟩ ∧
    ∃ k2 ∈ requiredKeys, (fun _ => none : Header) k2 = none ∧
      extractParams (fun _ => none : Header) = .error (.missingField k2) := by
  constructor
  · exact (extraction_reads_and_missing fullHead).1 6173 2048 2048 976 2 4 0
      (-2147483648) 1 (by decide) (by decide) (by decide) (by decide) (by decide)
      (by decide) (by decide) (by decide) (by decide)
  · exact (extraction_reads_and_missing (fun _ => none)).2
      ⟨"WAVELNTH", by simp [requiredKeys], rfl⟩

/-- The output metadata record is pointwise identical to the input
header: the three scaling keys are rewritten with the very values that
extraction read from the header. -/
lemma outHead_eq (head : Header) (p : Params)
    (hp : extractParams head = .ok p) : ∀ k, outHead head p k = head k := by
  obtain ⟨hbz, hbl, hbs⟩ := extractParams_ok_reads head p hp
  intro k
  unfold outHead setField
  by_cases h1 : k = "BSCALE"
  · subst h1; simp [hbs]
  by_cases h2 : k = "BLANK"
  · subst h2; simp [hbl]
  by_cases h3 : k = "BZERO"
  · subst h3; simp [hbz]
  simp [h1, h2, h3]

/-- C6. On every successful run, the metadata record of the corrected
image agrees with the input header on every key (so BZERO, BLANK and
BSCALE in particular are preserved bit for bit), and the original image
is returned unmodified: its pixel grid is the input grid and its
metadata agrees with the input header on every key. -/
theorem metadata_roundtrip_no_mutation (head : Header) (data : List (List ℚ))
    (res : (List (List ℕ) × Header) × (List (List ℚ) × Header))
    (h : darklimb head data = .ok res) :
    (∀ k, res.1.2 k = head k) ∧ res.2.1 = data ∧
      (∀ k, res.2.2 k = head k) := by
  unfold darklimb at h
  cases hp : extractParams head <;> rw [hp] at h
  · exact absurd h (fun hc => Except.noConfusion hc)
  case ok p =>
  injection h with h2
  subst h2
  exact ⟨outHead_eq head p hp, rfl, outHead_eq head p hp⟩

/-- The C6 theorem instantiated at the concrete full header and a 1-pixel
grid. -/
theorem metadata_roundtrip_no_mutation_witness :
    (∀ k, (outHead fullHead pFull) k = fullHead k) ∧
      ([[(1 : ℚ)]] = [[(1 : ℚ)]]) ∧
      (∀ k, (outHead fullHead pFull) k = fullHead k) := by
  have h : darklimb fullHead [[(1 : ℚ)]] =
      .ok ((imgOut pFull [[(1 : ℚ)]], outHead fullHead pFull),
        ([[(1 : ℚ)]], outHead fullHead pFull)) := by
    unfold darklimb
    rw [extractParams_fullHead]
  exact metadata_roundtrip_no_mutation fullHead [[(1 : ℚ)]] _ h

/-- C4 evaluates the embedded pipeline at the degenerate all-zero image:
no error is produced; the run succeeds even though max(data) = 0 (the
program performs the division with no check and no degenerate-image
error exists anywhere in it). -/
theorem allzero_image_no_error :
    ∃ r, darklimb fullHead [[(0 : ℚ)]] = Except.ok r := by
  refine ⟨((imgOut pFull [[(0 : ℚ)]], outHead fullHead pFull),
    ([[(0 : ℚ)]], outHead fullHead pFull)), ?_⟩
  unfold darklimb
  rw [extractParams_fullHead]

/-! The behaviour of the correction factor at the clamp boundary. -/

/-- At the disk edge itself (normalized radius exactly 1, not clamped)
the correction factor is 1 - u - v. -/
lemma corrFactor_at_one (lam : ℝ) :
    corrFactor lam 1 = 1 - darklimb_u lam - darklimb_v lam := by
  unfold corrFactor clampGrid
  rw [if_neg (lt_irrefl 1)]
  exact limbFactor_one _ _

/-- Strictly outside the disk the correction factor is exactly 1. -/
lemma corrFactor_of_gt (lam r : ℝ) (hr : 1 < r) : corrFactor lam r = 1 := by
  unfold corrFactor clampGrid
  rw [if_pos hr]
  exact limbFactor_zero _ _

/-- The unclamped correction formula is continuous in the radius. -/
lemma limbFactor_continuous (u v : ℝ) :
    Continuous fun r : ℝ => limbFactor u v r := by
  unfold limbFactor
  have ha : Continuous fun r : ℝ => Real.cos (Real.arcsin r) :=
    Real.continuous_cos.comp Real.continuous_arcsin
  continuity

/-- Approaching the boundary from outside the disk, the correction
factor tends to 1. -/
lemma corrFactor_right_tendsto (lam : ℝ) :
    Filter.Tendsto (corrFactor lam) (nhdsWithin 1 (Set.Ioi 1)) (nhds 1) := by
  refine Filter.Tendsto.congr' ?_ tendsto_const_nhds
  filter_upwards [self_mem_nhdsWithin] with r hr
  exact (corrFactor_of_gt lam r hr).symm

/-- Approaching the boundary from inside the disk, the correction factor
tends to 1 - u - v, the value at the boundary itself. -/
lemma corrFactor_left_tendsto (lam : ℝ) :
    Filter.Tendsto (corrFactor lam) (nhdsWithin 1 (Set.Iio 1))
      (nhds (1 - darklimb_u lam - darklimb_v lam)) := by
  have hc := ((limbFactor_continuous (darklimb_u lam) (darklimb_v lam)).tendsto 1)
  rw [limbFactor_one] at hc
  refine Filter.Tendsto.congr' ?_ (hc.mono_left nhdsWithin_le_nhds)
  filter_upwards [self_mem_nhdsWithin] with r hr
  unfold corrFactor clampGrid
  rw [if_neg (not_lt.mpr (le_of_lt hr))]

/-- Whenever u + v is nonzero, the correction factor is discontinuous at
the clamp boundary: the value 1 - u - v at radius 1 differs from the
limit 1 from outside. -/
lemma corrFactor_not_continuousAt (lam : ℝ)
    (h : darklimb_u lam + darklimb_v lam ≠ 0) :
    ¬ ContinuousAt (corrFactor lam) 1 := by
  intro hcont
  have ht : Filter.Tendsto (corrFactor lam) (nhdsWithin 1 (Set.Ioi 1))
      (nhds (corrFactor lam 1)) :=
    (hcont.continuousWithinAt (s := Set.Ioi 1))
  have h1 : corrFactor lam 1 = 1 := tendsto_nhds_unique ht (corrFactor_right_tendsto lam)
  rw [corrFactor_at_one] at h1
  apply h
  linarith

/-- C2 fails on the code: at wavelength 0 the correction factor, as a
function of normalized radius, is not continuous at the clamp
boundary 1. -/
theorem clamp_boundary_continuity_cex : ¬ ContinuousAt (corrFactor 0) 1 := by
  apply corrFactor_not_continuousAt
  norm_num [darklimb_u, darklimb_v]

/-- C2 amended. At the clamp boundary the correction factor jumps: its
value at normalized radius exactly 1 is 1 - u - v, its values just
inside tend to that same value, but its values just outside tend to 1,
so whenever u(λ) + v(λ) is nonzero the function is not continuous at
the boundary. -/
theorem clamp_boundary_jump (lam : ℝ)
    (h : darklimb_u lam + darklimb_v lam ≠ 0) :
    corrFactor lam 1 = 1 - darklimb_u lam - darklimb_v lam ∧
    Filter.Tendsto (corrFactor lam) (nhdsWithin 1 (Set.Iio 1))
      (nhds (1 - darklimb_u lam - darklimb_v lam)) ∧
    Filter.Tendsto (corrFactor lam) (nhdsWithin 1 (Set.Ioi 1)) (nhds 1) ∧
    ¬ ContinuousAt (corrFactor lam) 1 :=
  ⟨corrFactor_at_one lam, corrFactor_left_tendsto lam,
    corrFactor_right_tendsto lam, corrFactor_not_continuousAt lam h⟩

/-- The C2 amended theorem instantiated at wavelength 0, where
u + v = 0.3061429 is nonzero. -/
theorem clamp_boundary_jump_witness :
    darklimb_u 0 + darklimb_v 0 ≠ 0 ∧
    (corrFactor 0 1 = 1 - darklimb_u 0 - darklimb_v 0 ∧
      Filter.Tendsto (corrFactor 0) (nhdsWithin 1 (Set.Iio 1))
        (nhds (1 - darklimb_u 0 - darklimb_v 0)) ∧
      Filter.Tendsto (corrFactor 0) (nhdsWithin 1 (Set.Ioi 1)) (nhds 1) ∧
      ¬ ContinuousAt (corrFactor 0) 1) :=
  ⟨by norm_num [darklimb_u, darklimb_v],
    clamp_boundary_jump 0 (by norm_num [darklimb_u, darklimb_v])⟩

/-- C8. For every size × size input grid (the data model's image shape,
with size the NAXIS1 frame dimension), the corrected output grid has
exactly the same shape: the same number of rows and the same length for
each row. -/
theorem shape_invariance (head : Header) (data : List (List ℚ)) (p : Params)
    (res : (List (List ℕ) × Header) × (List (List ℚ) × Header))
    (h : darklimb head data = .ok res) (hp : extractParams head = .ok p)
    (hlen : data.length = p.size) (hrows : ∀ row ∈ data, row.length = p.size) :
    res.1.1.length = data.length ∧
      res.1.1.map List.length = data.map List.length := by
  unfold darklimb at h
  rw [hp] at h
  injection h with h2
  subst h2
  constructor
  · simp [imgOut, hlen]
  · have hdata : data.map List.length = List.replicate p.size p.size := by
      refine List.eq_replicate_iff.mpr ⟨by simp [hlen], ?_⟩
      intro b hb
      obtain ⟨row, hrow, rfl⟩ := List.mem_map.mp hb
      exact hrows row hrow
    have himg : (imgOut p data).map List.length =
        List.replicate p.size p.size := by
      refine List.eq_replicate_iff.mpr ⟨by simp [imgOut], ?_⟩
      intro b hb
      simp [imgOut] at hb
      obtain ⟨i, _, rfl⟩ := hb
      simp
    rw [hdata, himg]

/-- The C8 theorem instantiated at the concrete header (frame size 4)
and a concrete 4 × 4 grid. -/
theorem shape_invariance_witness :
    (imgOut pFull [[1, 2, 3, 4], [5, 6, 7, 8], [9, 10, 11, 12],
        [13, 14, 15, 16]]).length =
      ([[1, 2, 3, 4], [5, 6, 7, 8], [9, 10, 11, 12],
        [13, 14, 15, 16]] : List (List ℚ)).length ∧
    (imgOut pFull [[1, 2, 3, 4], [5, 6, 7, 8], [9, 10, 11, 12],
        [13, 14, 15, 16]]).map List.length =
      ([[1, 2, 3, 4], [5, 6, 7, 8], [9, 10, 11, 12],
        [13, 14, 15, 16]] : List (List ℚ)).map List.length := by
  have h : darklimb fullHead
      [[1, 2, 3, 4], [5, 6, 7, 8], [9, 10, 11, 12], [13, 14, 15, 16]] =
      .ok ((imgOut pFull [[1, 2, 3, 4], [5, 6, 7, 8], [9, 10, 11, 12],
          [13, 14, 15, 16]], outHead fullHead pFull),
        ([[1, 2, 3, 4], [5, 6, 7, 8], [9, 10, 11, 12], [13, 14, 15, 16]],
          outHead fullHead pFull)) := by
    unfold darklimb
    rw [extractParams_fullHead]
  exact shape_invariance fullHead _ pFull _ h extractParams_fullHead
    (by decide) (by decide)

/-- C10. Whenever the raw maximum pixel value is positive but strictly
below 1e4, the final magnitude multiplier int(1e-4 * max) is zero, so
every pixel of the corrected output grid is exactly zero. -/
theorem faint_image_zero_output (head : Header) (data : List (List ℚ))
    (p : Params) (hp : extractParams head = .ok p)
    (hpos : 0 < dataMax data) (hlt : dataMax data < 10000) :
    ∀ res, darklimb head data = .ok res →
      ∀ row ∈ res.1.1, ∀ x ∈ row, x = 0 := by
  have hm : rescaleMult data = 0 := by
    unfold rescaleMult qtrunc u32cast
    have h0 : (0 : ℚ) ≤ 1 / 10000 * dataMax data := by positivity
    rw [if_pos h0]
    have hf : ⌊1 / 10000 * dataMax data⌋ = 0 := by
      rw [Int.floor_eq_zero_iff]
      exact ⟨h0, by linarith⟩
    rw [hf]
    decide
  intro res hres row hrow x hx
  unfold darklimb at hres
  rw [hp] at hres
  injection hres with h2
  subst h2
  simp [imgOut] at hrow
  obtain ⟨i, _, rfl⟩ := hrow
  simp at hx
  obtain ⟨j, _, rfl⟩ := hx
  rw [hm]
  simp

/-- The C10 theorem instantiated at the concrete header and the 1-pixel
grid of raw maximum 5. -/
theorem faint_image_zero_output_witness :
    0 < dataMax [[(5 : ℚ)]] ∧ dataMax [[(5 : ℚ)]] < 10000 ∧
    ∀ res, darklimb fullHead [[(5 : ℚ)]] = .ok res →
      ∀ row ∈ res.1.1, ∀ x ∈ row, x = 0 :=
  ⟨by decide, by decide,
    faint_image_zero_output fullHead [[(5 : ℚ)]] pFull extractParams_fullHead
      (by decide) (by decide)⟩

/-! The per-pixel value of the output. -/

/-- Reading a mapped index range at an in-range position yields the
mapped value. -/
lemma getD_range_map {α : Type} (n i : ℕ) (hi : i < n) (f : ℕ → α) (d : α) :
    ((List.range n).map f).getD i d = f i := by
  rw [List.getD_eq_getElem?_getD, List.getElem?_map, List.getElem?_range hi]
  simp

/-- Reading the output grid at an in-range position yields the per-pixel
formula of the pipeline. -/
lemma imgOut_atN (p : Params) (data : List (List ℚ)) (i j : ℕ)
    (hi : i < p.size) (hj : j < p.size) :
    atN (imgOut p data) i j =
      u32cast (rtrunc ((rescale (dataMax data) (at2 data i j) : ℝ) /
        limbfiltAt p i j)) * rescaleMult data % 2 ^ 32 := by
  unfold atN imgOut
  rw [getD_range_map _ _ hi, getD_range_map _ _ hj]

/-- On nonnegative arguments the wrapped uint32 cast is plain reduction
mod 2^32. -/
lemma u32cast_nonneg (n : ℤ) (hn : 0 ≤ n) : u32cast n = n.toNat % 2 ^ 32 := by
  unfold u32cast
  omega

/-- On nonnegative reals truncation towards zero is the floor. -/
lemma rtrunc_nonneg (x : ℝ) (hx : 0 ≤ x) : rtrunc x = ⌊x⌋ := if_pos hx

/-- On nonnegative rationals truncation towards zero is the floor. -/
lemma qtrunc_nonneg (x : ℚ) (hx : 0 ≤ x) : qtrunc x = ⌊x⌋ := if_pos hx

/-- A concrete 2 × 2 header: center (0, 0), RSUN_OBS 1 over CDELT1 2
(radius 1/2 pixel), frame size 2. -/
def cHead : Header := fun k =>
  if k = "WAVELNTH" then some 6173
  else if k = "CRPIX1" then some 0
  else if k = "CRPIX2" then some 0
  else if k = "RSUN_OBS" then some 1
  else if k = "CDELT1" then some 2
  else if k = "NAXIS1" then some 2
  else if k = "BZERO" then some 0
  else if k = "BLANK" then some (-2147483648)
  else if k = "BSCALE" then some 1
  else none

/-- The parameters extracted from `cHead`. -/
def pC : Params := ⟨6173, 0, 0, 1 / 2, 2, 0, -2147483648, 1⟩

/-- The parameter record extracted from `cHead`. -/
lemma extractParams_cHead : extractParams cHead = .ok pC := by
  have h := extractParams_reads_ok cHead 6173 0 0 1 2 2 0
    (-2147483648) 1 (by decide) (by decide) (by decide) (by decide) (by decide)
    (by decide) (by decide) (by decide) (by decide)
  rw [h]
  norm_num [pC, Params.mk.injEq]
  decide

/-- A concrete raw grid containing the legal negative value -5 (not
below the -10 zero-fill sentinel) next to the maximum 100. -/
def cData : List (List ℚ) := [[100, -5], [0, 0]]

/-- The raw maximum of `cData`. -/
lemma dataMax_cData : dataMax cData = 100 := by
  norm_num [dataMax, cData, maxList, max_def]

/-- Pixel (0, 1) of `cData` lies off the (half-pixel) disk, so its
correction factor is exactly 1. -/
lemma limbfiltAt_pC_01 : limbfiltAt pC 0 1 = 1 := by
  unfold limbfiltAt
  apply corrFactor_of_gt
  unfold normGrid zDist
  have h1 : (((1 : ℕ) : ℝ) - ((pC.xcen : ℚ) : ℝ)) ^ 2 +
      (((0 : ℕ) : ℝ) - ((pC.ycen : ℚ) : ℝ)) ^ 2 = 1 := by
    norm_num [pC]
  rw [h1, Real.sqrt_one]
  norm_num [pC]

/-- C7 fails on the code: at the concrete image `cData` under `cHead`,
the quotient scaled / limb at pixel (0, 1) is strictly negative (the
value -5 survives the zero-fill, rescales to -500, and the off-disk
correction factor is 1), so not every such value is non-negative. -/
theorem pixel_nonneg_cex :
    extractParams cHead = .ok pC ∧
    (rescale (dataMax cData) (at2 cData 0 1) : ℝ) / limbfiltAt pC 0 1 < 0 := by
  refine ⟨extractParams_cHead, ?_⟩
  rw [limbfiltAt_pC_01, dataMax_cData]
  have h2 : at2 cData 0 1 = -5 := by norm_num [at2, cData]
  rw [h2]
  have h3 : rescale 100 (-5) = -500 := by norm_num [rescale]
  rw [h3]
  norm_num

/-- C7 amended. For every in-range pixel whose quotient scaled / limb is
non-negative (raw values in [-10, 0) can make it negative, as the
counterexample shows), the output pixel is the floor of the quotient --
truncation towards zero -- reduced to an unsigned 32-bit value, then
multiplied in uint32 arithmetic by the scalar floor(1e-4 * max(raw)). -/
theorem pixel_value_formula (head : Header) (data : List (List ℚ))
    (p : Params) (res : (List (List ℕ) × Header) × (List (List ℚ) × Header))
    (i j : ℕ) (h : darklimb head data = .ok res)
    (hp : extractParams head = .ok p) (hi : i < p.size) (hj : j < p.size)
    (hq : 0 ≤ (rescale (dataMax data) (at2 data i j) : ℝ) / limbfiltAt p i j)
    (hmax : 0 ≤ dataMax data) :
    atN res.1.1 i j =
      (⌊(rescale (dataMax data) (at2 data i j) : ℝ) /
          limbfiltAt p i j⌋.toNat % 2 ^ 32) *
        (⌊1 / 10000 * dataMax data⌋.toNat % 2 ^ 32) % 2 ^ 32 := by
  unfold darklimb at h
  rw [hp] at h
  injection h with h2
  subst h2
  rw [imgOut_atN p data i j hi hj]
  rw [rtrunc_nonneg _ hq, u32cast_nonneg _ (Int.floor_nonneg.mpr hq)]
  have hm : (0 : ℚ) ≤ 1 / 10000 * dataMax data := by positivity
  unfold rescaleMult
  rw [qtrunc_nonneg _ hm, u32cast_nonneg _ (Int.floor_nonneg.mpr hm)]

/-- The C7 amended theorem instantiated at pixel (0, 0) of the concrete
image: the center pixel has quotient 10000 / 1 and raw maximum 100. -/
theorem pixel_value_formula_witness :
    0 ≤ (rescale (dataMax cData) (at2 cData 0 0) : ℝ) / limbfiltAt pC 0 0 ∧
    atN (imgOut pC cData) 0 0 =
      (⌊(rescale (dataMax cData) (at2 cData 0 0) : ℝ) /
          limbfiltAt pC 0 0⌋.toNat % 2 ^ 32) *
        (⌊1 / 10000 * dataMax cData⌋.toNat % 2 ^ 32) % 2 ^ 32 := by
  have hl : limbfiltAt pC 0 0 = 1 := by
    unfold limbfiltAt corrFactor
    have hg : normGrid ((pC.xcen : ℚ) : ℝ) ((pC.ycen : ℚ) : ℝ)
        ((pC.radius : ℚ) : ℝ) 0 0 = 0 := by
      unfold normGrid zDist
      norm_num [pC]
    rw [hg]
    have hc : clampGrid 0 = 0 := by
      unfold clampGrid
      norm_num
    rw [hc]
    exact limbFactor_zero _ _
  have hq : 0 ≤ (rescale (dataMax cData) (at2 cData 0 0) : ℝ) /
      limbfiltAt pC 0 0 := by
    rw [hl, dataMax_cData]
    have h2 : at2 cData 0 0 = 100 := by norm_num [at2, cData]
    rw [h2]
    have h3 : rescale 100 100 = 10000 := by norm_num [rescale]
    rw [h3]
    norm_num
  have h : darklimb cHead cData =
      .ok ((imgOut pC cData, outHead cHead pC), (cData, outHead cHead pC)) := by
    unfold darklimb
    rw [extractParams_cHead]
  refine ⟨hq, ?_⟩
  exact pixel_value_formula cHead cData pC _ 0 0 h extractParams_cHead
    (by decide) (by decide) hq (by rw [dataMax_cData]; norm_num)

/-! Output-name derivation. -/

/-- Replacement leaves the empty subject unchanged at any fuel. -/
lemma replFuel_nil (pat rep : List Char) (f : ℕ) : replFuel pat rep f [] = [] := by
  cases f <;> rfl

/-- No occurrence of '.fits' can start at the boundary of a
'.fits'-free base and an appended '.fits': the pattern has no
nontrivial border (no character of 'fits' equals '.'). -/
lemma beginsW_boundary (c : Char) (bs : List Char)
    (h : hasOcc fitsPat (c :: bs) = false) :
    beginsW fitsPat ((c :: bs) ++ fitsPat) = false := by
  rcases bs with _ | ⟨b1, bs⟩
  · simp_all [beginsW, fitsPat, hasOcc]
  rcases bs with _ | ⟨b2, bs⟩
  · simp_all [beginsW, fitsPat, hasOcc]
  rcases bs with _ | ⟨b3, bs⟩
  · simp_all [beginsW, fitsPat, hasOcc]
  rcases bs with _ | ⟨b4, bs⟩
  · simp_all [beginsW, fitsPat, hasOcc]
  · simp_all [beginsW, fitsPat, hasOcc]

/-- With enough fuel, replacement over base ++ '.fits' with a
'.fits'-free base rewrites exactly the suffix. -/
lemma replFuel_base (base : List Char) (f : ℕ)
    (hb : hasOcc fitsPat base = false) (hf : base.length + 5 ≤ f) :
    replFuel fitsPat markPat f (base ++ fitsPat) = base ++ markPat := by
  induction base generalizing f with
  | nil =>
    obtain ⟨f, rfl⟩ : ∃ f2, f = f2 + 1 := ⟨f - 1, by omega⟩
    show replFuel fitsPat markPat (f + 1) fitsPat = markPat
    simp [fitsPat, replFuel, beginsW, replFuel_nil, markPat]
  | cons c bs ih =>
    obtain ⟨f, rfl⟩ : ∃ f2, f = f2 + 1 := ⟨f - 1, by omega⟩
    have hb2 : hasOcc fitsPat bs = false := by
      have h2 := hb
      simp [hasOcc] at h2
      exact h2.2
    have hbd : beginsW fitsPat (c :: (bs ++ fitsPat)) = false := by
      rw [← List.cons_append]
      exact beginsW_boundary c bs hb
    show replFuel fitsPat markPat (f + 1) (c :: (bs ++ fitsPat)) =
      c :: (bs ++ markPat)
    simp only [replFuel, hbd, Bool.false_eq_true, if_false]
    rw [ih f hb2 (by simp at hf; omega)]

/-- C9 fails on the code: on the name 'a.fits.fits' the program's
name derivation (Python replace, every occurrence) differs from the
specified suffix-only replacement. -/
theorem writefits_suffix_cex :
    writefits ['a', '.', 'f', 'i', 't', 's', '.', 'f', 'i', 't', 's'] ≠
      suffixReplaceSpec ['a', '.', 'f', 'i', 't', 's', '.', 'f', 'i', 't', 's'] := by
  decide

/-- C9 amended. The output name is derived by replacing every
occurrence of '.fits' in the input name with '_noLimbDark.fits'; when
'.fits' occurs only as the final suffix, this is exactly the suffix
replacement of the specification (with text elsewhere untouched). -/
theorem writefits_suffix_replace (base : List Char)
    (hb : hasOcc fitsPat base = false) :
    writefits (base ++ fitsPat) = base ++ markPat := by
  unfold writefits pyReplace
  apply replFuel_base base _ hb
  have hlen : (base ++ fitsPat).length = base.length + 5 := by
    rw [List.length_append]
    rfl
  omega

/-- The C9 amended theorem instantiated at the base name 'name'. -/
theorem writefits_suffix_replace_witness :
    hasOcc fitsPat ['n', 'a', 'm', 'e'] = false ∧
    writefits (['n', 'a', 'm', 'e'] ++ fitsPat) = ['n', 'a', 'm', 'e'] ++ markPat :=
  ⟨by decide, writefits_suffix_replace ['n', 'a', 'm', 'e'] (by decide)⟩

end Darklimb
